import Mathlib

/-!
Verification of the EPUB/SRT LLM-translator repository.

The development shallowly embeds, in Lean, the parts of the Python source
that the frozen claims are about:

* `translation_worker.py` — `TranslationWorker.split_prefix_suffix` and the
  per-fragment body of `TranslationWorker.run` (the backend HTTP call is
  abstracted as a function from the core text to a result-or-error);
* `main.py` — `TranslatorApp._has_mismatch` (the twelve-check mismatch
  detector), `TranslatorApp.load_epub` (extraction-time deduplication),
  `TranslatorApp.load_srt`, `TranslatorApp.update_translation_from_edit`,
  and the auto-fix retry loop (`start_auto_fix_process`,
  `_check_auto_fix_complete`, `finalize_translation`);
* `epub_creator.py` — the fallback text-node substitution of
  `EPUBCreator.run`.

Python strings are embedded as `String`/`List Char`.  The Python regex
character classes `\s`, `\d`, `\w` and the `str.isdigit`/`isalpha`/`isupper`
predicates are embedded at their ASCII fragment (the Unicode extensions are
irrelevant to every concrete input appearing below, and every universally
quantified theorem below is insensitive to the exact predicate).  Regex
scanning (`re.findall`, `re.split`, `re.sub`, `re.match`) is embedded by
deterministic scanners; where CPython would backtrack, the comment at the
definition records why the deterministic form computes the same match.
-/

/-- Python `\s` and `str.strip` whitespace, at its ASCII fragment:
space, tab, newline, carriage return, vertical tab, form feed. -/
def pySpace (c : Char) : Bool :=
  c == ' ' || c == '\t' || c == '\n' || c == '\r' || c == '\x0b' || c == '\x0c'

/-- Python `\d` (ASCII fragment). -/
def pyDigit (c : Char) : Bool :=
  '0' ≤ c && c ≤ '9'

/-- The apostrophe character (U+0027). -/
def apos : Char := Char.ofNat 39

/-- The backtick character (U+0060). -/
def btick : Char := Char.ofNat 96

/-- Opening curly brace (U+007B). -/
def obrace : Char := Char.ofNat 123

/-- Closing curly brace (U+007D). -/
def cbrace : Char := Char.ofNat 125

/-- Python `str.strip()` on a character list (ASCII whitespace fragment). -/
def pyStripList (l : List Char) : List Char :=
  ((l.dropWhile pySpace).reverse.dropWhile pySpace).reverse

/-- Python `str.strip()` on a string. -/
def pyStrip (s : String) : String :=
  ⟨pyStripList s.data⟩

/-- Python `str.split(sep)` with a non-empty separator: split on
non-overlapping leftmost occurrences, keeping empty pieces.  Fuel-driven
(every recursive call consumes at least one character, so the wrappers pass
`length + 1`). -/
def splitOnGo (sep : List Char) : Nat → List Char → List Char → List (List Char)
  | 0, acc, l => [acc.reverse ++ l]
  | _ + 1, acc, [] => [acc.reverse]
  | fuel + 1, acc, c :: rest =>
    if sep.isPrefixOf (c :: rest) then
      acc.reverse :: splitOnGo sep fuel [] ((c :: rest).drop sep.length)
    else splitOnGo sep fuel (c :: acc) rest

/-- Python `str.split(sep)` on strings (used with `"\n\n"` and `"\n"`). -/
def pySplit (s sep : String) : List String :=
  (splitOnGo sep.data (s.data.length + 1) [] s.data).map (fun l => ⟨l⟩)

/-- Python `sep.join(parts)`. -/
def joinWith (sep : String) : List String → String
  | [] => ""
  | [x] => x
  | x :: y :: rest => x ++ sep ++ joinWith sep (y :: rest)

/-- The sentence-final punctuation class `[\.\?!]` of `split_prefix_suffix`. -/
def endPunct (c : Char) : Bool :=
  c == '.' || c == '?' || c == '!'

/-- Embeds the head `^(\s*\d+[\.\)]\s*)` of the `split_prefix_suffix` regex
(translation_worker.py:40).  Returns `some (prefix_group, remainder)` when
the enumeration marker is present.  The leading `\s*`, `\d+` and `[\.\)]`
are deterministic because the whitespace, digit and `.`/`)` classes are
pairwise disjoint; the second `\s*` is greedy, and shortening it can never
turn a failing tail match into a succeeding one (it only prepends
whitespace to a remainder whose head is not whitespace). -/
def splitEnum (text : List Char) : Option (List Char × List Char) :=
  match (text.dropWhile pySpace).dropWhile pyDigit with
  | c :: r3 =>
    if ((text.dropWhile pySpace).takeWhile pyDigit).isEmpty then none
    else if c == '.' || c == ')' then
      some (text.takeWhile pySpace ++ (text.dropWhile pySpace).takeWhile pyDigit
              ++ c :: r3.takeWhile pySpace,
            r3.dropWhile pySpace)
    else none
  | [] => none

/-- Embeds the tail `(.*?)([\.\?!]?)(\s*)$` of the `split_prefix_suffix`
regex, applied to everything after the enumeration marker.  CPython resolves
it deterministically: the greedy `\s*` plus `$` force the match to end at the
end of the string, `.` cannot cross a newline, so the tail matches exactly
when every newline of `rest` lies in its maximal trailing whitespace run;
the lazy `(.*?)` then makes the optional `([\.\?!]?)` grab the last
pre-whitespace character when it is `.`, `?` or `!`.  Returns
`some (core, punct ++ trailing_ws)` on success. -/
def matchTail (rest : List Char) : Option (List Char × List Char) :=
  if ((rest.reverse.dropWhile pySpace).reverse).contains '\n' then none
  else
    match ((rest.reverse.dropWhile pySpace).reverse).getLast? with
    | some c =>
      if endPunct c then
        some (((rest.reverse.dropWhile pySpace).reverse).dropLast,
              c :: (rest.reverse.takeWhile pySpace).reverse)
      else
        some ((rest.reverse.dropWhile pySpace).reverse,
              (rest.reverse.takeWhile pySpace).reverse)
    | none => some ([], (rest.reverse.takeWhile pySpace).reverse)

/-- `TranslationWorker.split_prefix_suffix` (translation_worker.py:39-44):
`re.match` of `^(\s*\d+[\.\)]\s*)(.*?)([\.\?!]?)(\s*)$`; on a match returns
`(prefix, core, punct + trail)`, otherwise `("", text, "")`. -/
def splitPrefixSuffix (text : List Char) : List Char × List Char × List Char :=
  match splitEnum text with
  | some (pre, rest) =>
    match matchTail rest with
    | some (core, suf) => (pre, core, suf)
    | none => ([], text, [])
  | none => ([], text, [])

/-- The `"ERROR: "` marker prepended to a failed fragment (translation_worker.py:249). -/
def errorMark : List Char := "ERROR: ".data

/-- The message of the `ValueError` raised on an empty backend result
(translation_worker.py:241). -/
def emptyTranslationMsg : List Char := "Empty translation received".data

/-- One iteration of `TranslationWorker.run` (translation_worker.py:180-253)
for a single fragment, with the backend call abstracted as a function from
the isolated core text to either an error message or a translated core.
Returns the stored `(translated_text, is_translated)` pair: on success the
reassembled `prefix ++ core ++ suffix` with the flag set, on any failure
(raised error, or the `ValueError` raised on an empty result) the
`"ERROR: ..."` string with the flag cleared. -/
def runFragment (backend : List Char → Except (List Char) (List Char))
    (orig : List Char) : List Char × Bool :=
  match backend (splitPrefixSuffix orig).2.1 with
  | Except.error e => (errorMark ++ e, false)
  | Except.ok tc =>
    if tc.isEmpty then (errorMark ++ emptyTranslationMsg, false)
    else ((splitPrefixSuffix orig).1 ++ tc ++ (splitPrefixSuffix orig).2.2, true)

/-- `TranslatorApp.update_translation_from_edit` (main.py:1181-1190) acting
on one fragment's `(translated_text, is_translated)` pair: the edited text
is always stored, and the flag is raised exactly when the edit is non-empty
and the flag was not already set. -/
def updateTranslationFromEdit (edited : String) (st : String × Bool) : String × Bool :=
  (edited, if edited ≠ "" ∧ ¬ st.2 then true else st.2)

-- Helper lemmas about lists ---------------------------------------------

theorem getLast?_some_decomp {α : Type} :
    ∀ (l : List α) (c : α), l.getLast? = some c → l.dropLast ++ [c] = l := by
  intro l
  induction l with
  | nil => intro c h; simp [List.getLast?] at h
  | cons a as ih =>
    intro c h
    cases as with
    | nil => simp [List.getLast?] at h; simp [h]
    | cons b bs =>
      have h' : (b :: bs).getLast? = some c := by
        simpa [List.getLast?_cons_cons] using h
      have := ih c h'
      simpa [List.dropLast] using congrArg (a :: ·) this

theorem getLast?_none_nil {α : Type} :
    ∀ (l : List α), l.getLast? = none → l = [] := by
  intro l h
  cases l with
  | nil => rfl
  | cons a as => simp [List.getLast?_cons] at h

/-- The two halves produced by the reversed take/drop split of `matchTail`
reassemble to its input. -/
theorem matchTail_body_append (rest : List Char) :
    ((rest.reverse.dropWhile pySpace).reverse) ++ ((rest.reverse.takeWhile pySpace).reverse)
      = rest := by
  rw [← List.reverse_append, List.takeWhile_append_dropWhile, List.reverse_reverse]

theorem matchTail_append (rest core suf : List Char)
    (h : matchTail rest = some (core, suf)) : core ++ suf = rest := by
  have hbw : ((rest.reverse.dropWhile pySpace).reverse)
      ++ ((rest.reverse.takeWhile pySpace).reverse) = rest := matchTail_body_append rest
  unfold matchTail at h
  split at h
  · exact absurd h (by simp)
  · split at h
    · rename_i c hlast
      split at h
      · simp only [Option.some.injEq, Prod.mk.injEq] at h
        obtain ⟨hcore, hsuf⟩ := h
        rw [← hcore, ← hsuf]
        have hdl := getLast?_some_decomp _ c hlast
        calc ((rest.reverse.dropWhile pySpace).reverse).dropLast
              ++ (c :: (rest.reverse.takeWhile pySpace).reverse)
            = (((rest.reverse.dropWhile pySpace).reverse).dropLast ++ [c])
                ++ (rest.reverse.takeWhile pySpace).reverse := by simp
          _ = ((rest.reverse.dropWhile pySpace).reverse)
                ++ (rest.reverse.takeWhile pySpace).reverse := by rw [hdl]
          _ = rest := hbw
      · simp only [Option.some.injEq, Prod.mk.injEq] at h
        obtain ⟨hcore, hsuf⟩ := h
        rw [← hcore, ← hsuf]
        exact hbw
    · rename_i hlast
      have hb := getLast?_none_nil _ hlast
      simp only [Option.some.injEq, Prod.mk.injEq] at h
      obtain ⟨hcore, hsuf⟩ := h
      rw [← hcore, ← hsuf]
      simpa [hb] using hbw

/-- A successful enumeration-marker parse splits the text, and the matched
prefix group is never empty. -/
theorem splitEnum_append (text pre rest : List Char)
    (h : splitEnum text = some (pre, rest)) : pre ++ rest = text ∧ pre ≠ [] := by
  unfold splitEnum at h
  split at h
  · rename_i c r3 hc
    split at h
    · exact absurd h (by simp)
    · split at h
      · simp only [Option.some.injEq, Prod.mk.injEq] at h
        obtain ⟨hpre, hrest⟩ := h
        have e1 : text.takeWhile pySpace ++ text.dropWhile pySpace = text :=
          List.takeWhile_append_dropWhile pySpace text
        have e2 : (text.dropWhile pySpace).takeWhile pyDigit
            ++ (text.dropWhile pySpace).dropWhile pyDigit = text.dropWhile pySpace :=
          List.takeWhile_append_dropWhile pyDigit (text.dropWhile pySpace)
        have e3 : r3.takeWhile pySpace ++ r3.dropWhile pySpace = r3 :=
          List.takeWhile_append_dropWhile pySpace r3
        constructor
        · rw [← hpre, ← hrest]
          calc (text.takeWhile pySpace ++ (text.dropWhile pySpace).takeWhile pyDigit
                  ++ c :: r3.takeWhile pySpace) ++ r3.dropWhile pySpace
              = text.takeWhile pySpace ++ ((text.dropWhile pySpace).takeWhile pyDigit
                  ++ c :: (r3.takeWhile pySpace ++ r3.dropWhile pySpace)) := by simp
            _ = text.takeWhile pySpace ++ ((text.dropWhile pySpace).takeWhile pyDigit
                  ++ c :: r3) := by rw [e3]
            _ = text.takeWhile pySpace ++ ((text.dropWhile pySpace).takeWhile pyDigit
                  ++ (text.dropWhile pySpace).dropWhile pyDigit) := by rw [← hc]
            _ = text.takeWhile pySpace ++ text.dropWhile pySpace := by rw [e2]
            _ = text := e1
        · rw [← hpre]
          simp
      · exact absurd h (by simp)
  · exact absurd h (by simp)

/-- Claim C10: `split_prefix_suffix` is a partition of its input — prefix,
core and suffix always concatenate back to the original text — and whenever
the returned prefix is empty (in particular whenever the leading-enumeration
pattern does not match) the result is `("", text, "")`, so reassembly with
an unchanged core is the identity. -/
theorem splitPrefixSuffix_partition (t : List Char) :
    (splitPrefixSuffix t).1 ++ (splitPrefixSuffix t).2.1 ++ (splitPrefixSuffix t).2.2 = t ∧
    ((splitPrefixSuffix t).1 = [] →
      (splitPrefixSuffix t).2.1 = t ∧ (splitPrefixSuffix t).2.2 = []) := by
  unfold splitPrefixSuffix
  cases hse : splitEnum t with
  | none => simp
  | some pr =>
    obtain ⟨pre, rest⟩ := pr
    obtain ⟨hpr, hpne⟩ := splitEnum_append t pre rest hse
    cases hmt : matchTail rest with
    | none => simp [hmt]
    | some cs =>
      obtain ⟨core, suf⟩ := cs
      have hcs := matchTail_append rest core suf hmt
      simp only [hmt]
      constructor
      · rw [List.append_assoc, hcs]
        exact hpr
      · intro hnil
        exact absurd hnil hpne

/-- Witness for C10 at a concrete input with no enumeration marker. -/
theorem splitPrefixSuffix_partition_witness :
    (splitPrefixSuffix "Hello".data).2.1 = "Hello".data ∧
    (splitPrefixSuffix "Hello".data).2.2 = [] :=
  (splitPrefixSuffix_partition "Hello".data).2 (by decide)

/-- Claim C1: the per-fragment call splits `"12. Hello."` into prefix
`"12. "`, core `"Hello"` and suffix `"."`; and for every input text and
every backend whose answer at the isolated core is a non-empty translated
core, the stored `translated_text` is exactly `prefix ++ core ++ suffix`
with the prefix and suffix verbatim, independent of what the backend
returned for the core. -/
theorem numbering_preservation :
    splitPrefixSuffix "12. Hello.".data = ("12. ".data, "Hello".data, ".".data) ∧
    ∀ (backend : List Char → Except (List Char) (List Char)) (orig tc : List Char),
      backend (splitPrefixSuffix orig).2.1 = Except.ok tc → tc ≠ [] →
      runFragment backend orig =
        ((splitPrefixSuffix orig).1 ++ tc ++ (splitPrefixSuffix orig).2.2, true) := by
  constructor
  · decide
  · intro backend orig tc hb hne
    unfold runFragment
    rw [hb]
    simp [List.isEmpty_iff, hne]

/-- Witness for C1: a concrete backend answer is reassembled around the
untouched prefix and suffix. -/
theorem numbering_preservation_witness :
    runFragment (fun _ => Except.ok "Bonjour".data) "12. Hello.".data =
      ("12. Bonjour.".data, true) := by
  have h := numbering_preservation.2 (fun _ => Except.ok "Bonjour".data)
    "12. Hello.".data "Bonjour".data rfl (by decide)
  rw [h]
  decide

/-- Claim C4: the worker raises `is_translated` exactly when the backend
returned a non-empty result; every failure path stores an `"ERROR: ..."`
string with the flag cleared (a raised error stores its message, an empty
result stores the empty-translation message); and the manual-edit path
raises the flag only when the flag was already set or the stored edit is
non-empty — never merely because an error string left the field non-empty. -/
theorem is_translated_only_on_success
    (backend : List Char → Except (List Char) (List Char)) (orig : List Char) :
    ((runFragment backend orig).2 = true ↔
      ∃ tc, backend (splitPrefixSuffix orig).2.1 = Except.ok tc ∧ tc ≠ []) ∧
    (∀ e, backend (splitPrefixSuffix orig).2.1 = Except.error e →
      runFragment backend orig = (errorMark ++ e, false)) ∧
    (backend (splitPrefixSuffix orig).2.1 = Except.ok [] →
      runFragment backend orig = (errorMark ++ emptyTranslationMsg, false)) ∧
    (∀ (edited : String) (st : String × Bool),
      (updateTranslationFromEdit edited st).1 = edited ∧
      ((updateTranslationFromEdit edited st).2 = true ↔ (st.2 = true ∨ edited ≠ ""))) := by
  refine ⟨?_, ?_, ?_, ?_⟩
  · unfold runFragment
    cases hb : backend (splitPrefixSuffix orig).2.1 with
    | error e => simp [hb]
    | ok tc =>
      by_cases hte : tc.isEmpty
      · have : tc = [] := by simpa [List.isEmpty_iff] using hte
        simp [hte, this]
      · have hne : tc ≠ [] := by simpa [List.isEmpty_iff] using hte
        simp [hte]
        exact hne
  · intro e hb
    unfold runFragment
    rw [hb]
  · intro hb
    unfold runFragment
    rw [hb]
    simp
  · intro edited st
    constructor
    · rfl
    · unfold updateTranslationFromEdit
      by_cases he : edited = ""
      · simp [he]
      · by_cases hf : st.2
        · simp [he, hf]
        · simp [he, hf]

/-- Witness for C4 at a concrete erroring backend and fragment. -/
theorem is_translated_only_on_success_witness :
    runFragment (fun _ => Except.error "boom".data) "Hi".data =
      (errorMark ++ "boom".data, false) :=
  (is_translated_only_on_success (fun _ => Except.error "boom".data) "Hi".data).2.1
    "boom".data rfl

-- The mismatch detector (`TranslatorApp._has_mismatch`, main.py:865-1008) --

/-- Python set equality for sets built from a list of findall results:
two lists denote the same set exactly when each element of one occurs in
the other. -/
def eqSet {α : Type} [DecidableEq α] (a b : List α) : Bool :=
  a.all (fun x => decide (x ∈ b)) && b.all (fun x => decide (x ∈ a))

/-- Distance of two naturals, embedding Python `abs(a - b)` on ints. -/
def natDist (a b : Nat) : Nat :=
  max a b - min a b

/-- `count_paragraphs` (main.py:873-877): blank-line-separated non-blank
blocks; when at most one, the number of non-blank lines instead. -/
def countParagraphs (t : String) : Nat :=
  if ((pySplit t "\n\n").filter (fun p => pyStrip p != "")).length > 1 then
    ((pySplit t "\n\n").filter (fun p => pyStrip p != "")).length
  else
    ((pySplit t "\n").filter (fun p => pyStrip p != "")).length

/-- `first_char_type` (main.py:881-886): `re.search(r'\S', text)` finds the
first non-whitespace character; classes per `str.isdigit`/`str.isalpha`
(ASCII fragment). -/
def firstCharType (t : String) : String :=
  match t.data.find? (fun c => !pySpace c) with
  | none => "none"
  | some c => if c.isDigit then "digit" else if c.isAlpha then "alpha" else "other"

/-- `last_char_type` (main.py:891-905): `re.search(r'\S(?=\s*$)', text)`
finds the last non-whitespace character (the first position whose suffix is
all whitespace). -/
def lastCharType (t : String) : String :=
  match t.data.reverse.find? (fun c => !pySpace c) with
  | none => "none"
  | some c =>
    if c == '.' || c == '!' || c == '?' then "sentence_end"
    else if c == ',' || c == ';' || c == ':' then "punctuation"
    else if c.isDigit then "digit"
    else if c.isAlpha then "alpha"
    else "other"

/-- Lazy scan to the first occurrence of a one-character delimiter; fails at
a newline or the end of input, mirroring that `.` in a lazy `.*?` cannot
cross a newline. -/
def scanToDelim1 (d : Char) : List Char → Option (List Char × List Char)
  | [] => none
  | c :: rest =>
    if c == d then some ([], rest)
    else if c == '\n' then none
    else (scanToDelim1 d rest).map (fun pr => (c :: pr.1, pr.2))

/-- Lazy scan to the first occurrence of a doubled delimiter (for `\*\*`). -/
def scanToDelim2 (d : Char) : List Char → Option (List Char × List Char)
  | [] => none
  | [_] => none
  | c1 :: c2 :: rest =>
    if c1 == d && c2 == d then some ([], rest)
    else if c1 == '\n' then none
    else (scanToDelim2 d (c2 :: rest)).map (fun pr => (c1 :: pr.1, pr.2))

/-- `re.findall(r'\{.*?\}|%s|%d', text)` of `extract_placeholders`
(main.py:909-910): non-overlapping left-to-right scan; on a failed attempt
the scan advances one position.  All scanners below take a fuel argument;
the wrappers pass `length + 1`, which is enough because every recursive call
consumes at least one character. -/
def scanPlaceholders : Nat → List Char → List (List Char)
  | 0, _ => []
  | _ + 1, [] => []
  | fuel + 1, c :: rest =>
    if c == obrace then
      match scanToDelim1 cbrace rest with
      | some (ins, aft) => (obrace :: ins ++ [cbrace]) :: scanPlaceholders fuel aft
      | none => scanPlaceholders fuel rest
    else if c == '%' then
      match rest with
      | 's' :: aft => ['%', 's'] :: scanPlaceholders fuel aft
      | 'd' :: aft => ['%', 'd'] :: scanPlaceholders fuel aft
      | _ => scanPlaceholders fuel rest
    else scanPlaceholders fuel rest

/-- The placeholder set of a text (`extract_placeholders`). -/
def placeholdersOf (t : String) : List (List Char) :=
  scanPlaceholders (t.data.length + 1) t.data

/-- `re.findall(r'\d+', text)` of `extract_numbers` (main.py:916-917):
maximal digit runs (ASCII fragment of `\d`). -/
def digitRuns : Nat → List Char → List (List Char)
  | 0, _ => []
  | _ + 1, [] => []
  | fuel + 1, c :: rest =>
    if pyDigit c then
      (c :: rest.takeWhile pyDigit) :: digitRuns fuel (rest.dropWhile pyDigit)
    else digitRuns fuel rest

/-- The numeric-literal set of a text (`extract_numbers`). -/
def numbersOf (t : String) : List (List Char) :=
  digitRuns (t.data.length + 1) t.data

/-- `re.findall(r'\*\*.*?\*\*', text)` (bold spans, main.py:926). -/
def findBold : Nat → List Char → List (List Char)
  | 0, _ => []
  | _ + 1, [] => []
  | fuel + 1, c :: rest =>
    if c == '*' then
      match rest with
      | c2 :: rest2 =>
        if c2 == '*' then
          match scanToDelim2 '*' rest2 with
          | some (ins, aft) => ('*' :: '*' :: (ins ++ ['*', '*'])) :: findBold fuel aft
          | none => findBold fuel rest
        else findBold fuel rest
      | [] => []
    else findBold fuel rest

/-- `re.findall` of a one-character-delimited lazy span (`\*.*?\*`,
backtick code spans, `_.*?_`; main.py:927-929). -/
def findWrapped (d : Char) : Nat → List Char → List (List Char)
  | 0, _ => []
  | _ + 1, [] => []
  | fuel + 1, c :: rest =>
    if c == d then
      match scanToDelim1 d rest with
      | some (ins, aft) => (d :: (ins ++ [d])) :: findWrapped d fuel aft
      | none => findWrapped d fuel rest
    else findWrapped d fuel rest

/-- The inline-formatting set of a text (`extract_formatting`,
main.py:924-930): union of bold, italic, code and underline findall
results. -/
def formattingOf (t : String) : List (List Char) :=
  findBold (t.data.length + 1) t.data ++ findWrapped '*' (t.data.length + 1) t.data
    ++ findWrapped btick (t.data.length + 1) t.data
    ++ findWrapped '_' (t.data.length + 1) t.data

/-- The character class of the URL pattern (main.py:936):
`[a-zA-Z]|[0-9]|[$-_@.&+]|[!*\\(\\),]|%hexhex` — each repetition of the
`(?:...)+` admits exactly one character of this union (`$-_` is the
ASCII range U+0024-U+005F, which also contains every `%hh` character, so
the final alternative adds nothing). -/
def urlChar (c : Char) : Bool :=
  ('a' ≤ c && c ≤ 'z') || ('A' ≤ c && c ≤ 'Z') || ('0' ≤ c && c ≤ '9') ||
  (Char.ofNat 0x24 ≤ c && c ≤ Char.ofNat 0x5f) || c == '@' || c == '.' || c == '&' ||
  c == '+' || c == '!' || c == '*' || c == '\\' || c == '(' || c == ')' || c == ','

/-- One attempt of the URL pattern `http[s]?://(...)+` at the current
position: literal scheme (trying the `s` variant first, as the greedy `[s]?`
does), then a non-empty maximal run of URL characters. -/
def matchUrlAt : List Char → Option (List Char × List Char)
  | 'h' :: 't' :: 't' :: 'p' :: 's' :: ':' :: '/' :: '/' :: r2 =>
    if (r2.takeWhile urlChar).isEmpty then none
    else some ("https://".data ++ r2.takeWhile urlChar, r2.dropWhile urlChar)
  | 'h' :: 't' :: 't' :: 'p' :: ':' :: '/' :: '/' :: r2 =>
    if (r2.takeWhile urlChar).isEmpty then none
    else some ("http://".data ++ r2.takeWhile urlChar, r2.dropWhile urlChar)
  | _ => none

/-- `re.findall` of the URL pattern (main.py:938). -/
def findUrls : Nat → List Char → List (List Char)
  | 0, _ => []
  | _ + 1, [] => []
  | fuel + 1, c :: rest =>
    match matchUrlAt (c :: rest) with
    | some (m, aft) => m :: findUrls fuel aft
    | none => findUrls fuel rest

/-- After a candidate `]`, try to complete `\(.*?\)`. -/
def mdTryParen : List Char → Option (List Char × List Char)
  | o :: r2 =>
    if o == '(' then
      (scanToDelim1 ')' r2).map (fun pr => ('(' :: (pr.1 ++ [')']), pr.2))
    else none
  | [] => none

/-- Scan after an opening `[` for the rest of `\[.*?\]\(.*?\)`: the lazy
link text extends to the first `]` that is followed by a completable
`(...)`; a `]` whose parenthesised part fails is absorbed into the link
text, exactly as CPython backtracking does. -/
def mdAfterOpen : List Char → Option (List Char × List Char)
  | [] => none
  | c :: rest =>
    if c == '\n' then none
    else
      match (if c == ']' then mdTryParen rest else none) with
      | some pr => some (c :: pr.1, pr.2)
      | none => (mdAfterOpen rest).map (fun pr => (c :: pr.1, pr.2))

/-- `re.findall(r'\[.*?\]\(.*?\)', text)` (markdown links, main.py:937). -/
def findMdLinks : Nat → List Char → List (List Char)
  | 0, _ => []
  | _ + 1, [] => []
  | fuel + 1, c :: rest =>
    if c == '[' then
      match mdAfterOpen rest with
      | some (tail, aft) => ('[' :: tail) :: findMdLinks fuel aft
      | none => findMdLinks fuel rest
    else findMdLinks fuel rest

/-- The URL/link set of a text (`extract_urls`, main.py:935-939). -/
def urlsOf (t : String) : List (List Char) :=
  findUrls (t.data.length + 1) t.data ++ findMdLinks (t.data.length + 1) t.data

/-- Python `\w` (ASCII fragment). -/
def wordChar (c : Char) : Bool :=
  ('a' ≤ c && c ≤ 'z') || ('A' ≤ c && c ≤ 'Z') || ('0' ≤ c && c ≤ '9') || c == '_'

/-- `re.sub(r"(?<=\w)'(?=\w)", "", text)` (main.py:946): delete every
apostrophe whose neighbours in the original text are both word characters
(a single pass over the original text, as `re.sub` matches
non-overlapping width-1 occurrences). -/
def filterApos : List Char → List Char
  | a :: b :: c :: rest =>
    if b == apos && wordChar a && wordChar c then a :: filterApos (c :: rest)
    else a :: filterApos (b :: c :: rest)
  | l => l

/-- The dictionary built by `count_brackets_quotes` (main.py:944-953). -/
structure BQCounts where
  quotes : Nat
  parentheses : Nat
  square_brackets : Nat
  curly_brackets : Nat
deriving DecidableEq

/-- `count_brackets_quotes` (main.py:944-953): counts on the
apostrophe-filtered text. -/
def countBracketsQuotes (t : String) : BQCounts :=
  { quotes := (filterApos t.data).count '"' + (filterApos t.data).count apos,
    parentheses := (filterApos t.data).count '(' + (filterApos t.data).count ')',
    square_brackets := (filterApos t.data).count '[' + (filterApos t.data).count ']',
    curly_brackets := (filterApos t.data).count obrace + (filterApos t.data).count cbrace }

/-- The bracket/quote check of the detector (main.py:955). -/
def bracketsQuotesMismatch (o t : String) : Bool :=
  decide (countBracketsQuotes o ≠ countBracketsQuotes t)

/-- The sentence-terminator class of `count_sentence_starts`. -/
def sentPunct (c : Char) : Bool :=
  c == '.' || c == '!' || c == '?'

/-- `re.split(r'[.!?]+\s+', text)` (main.py:959): each separator is a
maximal run of sentence punctuation followed by a non-empty maximal run of
whitespace (the two classes are disjoint, so greedy matching is
deterministic); a punctuation run not followed by whitespace separates
nothing. -/
def sentSplitGo : Nat → List Char → List Char → List (List Char)
  | 0, _, acc => [acc.reverse]
  | _ + 1, [], acc => [acc.reverse]
  | fuel + 1, c :: rest, acc =>
    if sentPunct c then
      if (((c :: rest).dropWhile sentPunct).takeWhile pySpace).isEmpty then
        sentSplitGo fuel rest (c :: acc)
      else
        acc.reverse :: sentSplitGo fuel (((c :: rest).dropWhile sentPunct).dropWhile pySpace) []
    else sentSplitGo fuel rest (c :: acc)

/-- `count_sentence_starts` (main.py:958-964): the number of split pieces
that are non-blank and begin with an uppercase letter (ASCII fragment of
`str.isupper`). -/
def countSentenceStarts (t : String) : Nat :=
  (sentSplitGo (t.data.length + 1) t.data []).countP fun p =>
    match pyStripList p with
    | c :: _ => c.isUpper
    | [] => false

/-- The emoji character class of `extract_special_chars` (main.py:971).
In the source file the class is mojibake-damaged: it literally consists of
three ranges U+00C4-U+F8FF plus singleton members that all lie inside that
range, so it denotes exactly the range U+00C4-U+F8FF. -/
def specialEmoji (c : Char) : Bool :=
  Char.ofNat 0xC4 ≤ c && c ≤ Char.ofNat 0xF8FF

/-- One attempt of the emoticon alternation
`[class]|:\)|:\(|:D|;-?\)|:-?\(|:-?D` at the current position, trying the
alternatives in the regex order. -/
def matchEmoAt : List Char → Option (List Char × List Char)
  | [] => none
  | c :: rest =>
    if specialEmoji c then some ([c], rest)
    else
      match c :: rest with
      | ':' :: ')' :: r => some ([':', ')'], r)
      | ':' :: '(' :: r => some ([':', '('], r)
      | ':' :: 'D' :: r => some ([':', 'D'], r)
      | ';' :: '-' :: ')' :: r => some ([';', '-', ')'], r)
      | ';' :: ')' :: r => some ([';', ')'], r)
      | ':' :: '-' :: '(' :: r => some ([':', '-', '('], r)
      | ':' :: '-' :: 'D' :: r => some ([':', '-', 'D'], r)
      | _ => none

/-- `re.findall` of the emoticon pattern (main.py:972). -/
def findSpecialEmo : Nat → List Char → List (List Char)
  | 0, _ => []
  | _ + 1, [] => []
  | fuel + 1, c :: rest =>
    match matchEmoAt (c :: rest) with
    | some (m, aft) => m :: findSpecialEmo fuel aft
    | none => findSpecialEmo fuel rest

/-- The typographic-symbol class of `extract_special_chars` (main.py:974),
taken literally from the (mojibake-damaged) source file. -/
def symbolChars : List Char :=
  [Char.ofNat 0xAC, Char.ofNat 0xA9, Char.ofNat 0xC6, Char.ofNat 0x201A,
   Char.ofNat 0xD1, Char.ofNat 0xA2, Char.ofNat 0xDF, Char.ofNat 0x2202,
   Char.ofNat 0xC4, Char.ofNat 0x2020, Char.ofNat 0xB0, Char.ofNat 0xB6,
   Char.ofNat 0x221E, Char.ofNat 0x2264, Char.ofNat 0x2265, Char.ofNat 0x3C0,
   Char.ofNat 0x222B, Char.ofNat 0xB4, Char.ofNat 0xAA, Char.ofNat 0xF8]

/-- `extract_special_chars` (main.py:969-975): union of the emoticon
findall and the symbol-class findall. -/
def specialCharsOf (t : String) : List (List Char) :=
  findSpecialEmo (t.data.length + 1) t.data
    ++ (t.data.filter (fun c => symbolChars.contains c)).map (fun c => [c])

/-- ASCII letter class `[a-zA-Z]`. -/
def asciiAlpha (c : Char) : Bool :=
  ('a' ≤ c && c ≤ 'z') || ('A' ≤ c && c ≤ 'Z')

/-- `re.match(r'^\s*\d+\.', line)` (main.py:982). -/
def lsNum (l : List Char) : Bool :=
  !((l.dropWhile pySpace).takeWhile pyDigit).isEmpty &&
    (match (l.dropWhile pySpace).dropWhile pyDigit with
     | c :: _ => c == '.'
     | [] => false)

/-- `re.match(r'^\s*[a-zA-Z]\.', line)` (main.py:983). -/
def lsAlpha (l : List Char) : Bool :=
  match l.dropWhile pySpace with
  | a :: c :: _ => asciiAlpha a && c == '.'
  | _ => false

/-- `re.match` of the bullet pattern (main.py:984).  In the source file the
bullet class is mojibake-damaged and literally contains `-`, `*` and the
three characters U+201A, U+00C4, U+00A2. -/
def lsBullet (l : List Char) : Bool :=
  match l.dropWhile pySpace with
  | c :: _ =>
    c == '-' || c == '*' || c == Char.ofNat 0x201A || c == Char.ofNat 0xC4 ||
      c == Char.ofNat 0xA2
  | [] => false

/-- `re.match(r'^\s*\([a-zA-Z0-9]+\)', line)` (main.py:985). -/
def lsParen (l : List Char) : Bool :=
  match l.dropWhile pySpace with
  | c :: r =>
    c == '(' && !(r.takeWhile (fun x => asciiAlpha x || pyDigit x)).isEmpty &&
      (match r.dropWhile (fun x => asciiAlpha x || pyDigit x) with
       | d :: _ => d == ')'
       | [] => false)
  | [] => false

/-- `has_list_structure` (main.py:980-991): true when at least two lines
match one of the four list-marker patterns. -/
def hasListStructure (t : String) : Bool :=
  decide (2 ≤ ((pySplit t "\n").map String.data).countP lsNum) ||
  decide (2 ≤ ((pySplit t "\n").map String.data).countP lsAlpha) ||
  decide (2 ≤ ((pySplit t "\n").map String.data).countP lsBullet) ||
  decide (2 ≤ ((pySplit t "\n").map String.data).countP lsParen)

/-- The length check (main.py:914): both texts non-empty and
`abs(len(orig) - len(trans)) > 0.5 * max(len(orig), len(trans))`; the
comparison of an integer with the float `0.5 * max` is exact, so it is
embedded as `2 * dist > max`. -/
def lengthMismatch (o t : String) : Bool :=
  decide (o ≠ "") && decide (t ≠ "") &&
    decide (2 * natDist o.length t.length > max o.length t.length)

/-- `TranslatorApp._has_mismatch` (main.py:865-1008): false for a fragment
not marked translated; otherwise the disjunction of the twelve checks, in
the order of the final `any([...])`. -/
def hasMismatch (orig trans : String) (is_translated : Bool) : Bool :=
  if is_translated then
    decide (countParagraphs orig ≠ countParagraphs trans) ||
    decide (firstCharType orig ≠ firstCharType trans) ||
    decide (lastCharType orig ≠ lastCharType trans) ||
    !(eqSet (placeholdersOf orig) (placeholdersOf trans)) ||
    lengthMismatch orig trans ||
    !(eqSet (numbersOf orig) (numbersOf trans)) ||
    !(eqSet (formattingOf orig) (formattingOf trans)) ||
    !(eqSet (urlsOf orig) (urlsOf trans)) ||
    bracketsQuotesMismatch orig trans ||
    decide (natDist (countSentenceStarts orig) (countSentenceStarts trans) > 1) ||
    !(eqSet (specialCharsOf orig) (specialCharsOf trans)) ||
    decide (hasListStructure orig ≠ hasListStructure trans)
  else false

-- Detector lemmas and claims C2, C3, C9 ----------------------------------

theorem decide_ne_self_eq_false {α : Type} [DecidableEq α] (a : α) :
    decide (a ≠ a) = false := by
  simp

theorem eqSet_self {α : Type} [DecidableEq α] (l : List α) : eqSet l l = true := by
  simp [eqSet, List.all_eq_true]

theorem natDist_self (n : Nat) : natDist n n = 0 := by
  simp [natDist]

/-- Claim C2: a fragment translated identically to its source triggers none
of the twelve checks — the detector classifies it as not mismatched. -/
theorem mismatch_detector_identity (x : String) (h : x ≠ "") :
    hasMismatch x x true = false := by
  simp [hasMismatch, lengthMismatch, bracketsQuotesMismatch, decide_ne_self_eq_false,
    eqSet_self, natDist_self]

/-- Witness for C2 at a concrete non-empty fragment. -/
theorem mismatch_detector_identity_witness : hasMismatch "a" "a" true = false :=
  mismatch_detector_identity "a" (by decide)

/-- Claim C3: a fragment whose `is_translated` flag is false is never
flagged, whatever its original and translated texts are. -/
theorem mismatch_skips_untranslated (o t : String) :
    hasMismatch o t false = false := by
  simp [hasMismatch]

/-- Claim C9: the bracket/quote check flags a mismatch exactly when, after
removing word-internal apostrophes from each text, the quote count or one
of the three bracket-pair counts differs; and the apostrophe filter indeed
removes a word-internal apostrophe. -/
theorem brackets_quotes_check :
    (∀ o t : String,
      bracketsQuotesMismatch o t = true ↔
        ((filterApos o.data).count '"' + (filterApos o.data).count apos ≠
           (filterApos t.data).count '"' + (filterApos t.data).count apos ∨
         (filterApos o.data).count '(' + (filterApos o.data).count ')' ≠
           (filterApos t.data).count '(' + (filterApos t.data).count ')' ∨
         (filterApos o.data).count '[' + (filterApos o.data).count ']' ≠
           (filterApos t.data).count '[' + (filterApos t.data).count ']' ∨
         (filterApos o.data).count obrace + (filterApos o.data).count cbrace ≠
           (filterApos t.data).count obrace + (filterApos t.data).count cbrace)) ∧
    filterApos ['d', 'o', 'n', apos, 't'] = ['d', 'o', 'n', 't'] := by
  constructor
  · intro o t
    simp only [bracketsQuotesMismatch, decide_eq_true_eq, countBracketsQuotes, ne_eq,
      BQCounts.mk.injEq, not_and_or]
  · decide

-- The auto-fix retry controller (main.py:1199-1360) ----------------------

/-- The controller state relevant to one selected fragment: its
`auto_fix_attempts` counter, its membership in `selected_for_auto_fix`,
and (history, for the statements below) the number of retry dispatches
performed so far. -/
structure CtrlState where
  attempts : Nat
  inSet : Bool
  retries : Nat
deriving DecidableEq

/-- One invocation of `start_auto_fix_process` (main.py:1199-1217)
restricted to a single selected fragment whose current mismatch status is
`mismatch`: a mismatched fragment below the cap is dispatched for retry
(incrementing its counter); a mismatched fragment at the cap, or a
non-mismatched fragment, is discarded from the auto-fix set.  The boolean
result records whether a retry was dispatched (`to_retry` non-empty). -/
def autoFixRound (maxAttempts : Nat) (mismatch : Bool) (s : CtrlState) :
    CtrlState × Bool :=
  if s.inSet then
    if mismatch then
      if s.attempts < maxAttempts then
        ({ attempts := s.attempts + 1, inSet := true, retries := s.retries + 1 }, true)
      else ({ s with inSet := false }, false)
    else ({ s with inSet := false }, false)
  else (s, false)

/-- The auto-fix loop for a single selected fragment whose retranslation
result always has mismatch status `mismatch` (the claim premises a fragment
that always mismatches, i.e. `mismatch = true`).  After a dispatched retry
completes, `_check_auto_fix_complete` (main.py:1262-1272) re-enters
`start_auto_fix_process` while some selected fragment still mismatches, and
otherwise calls `finalize_translation`; when no retry was dispatched,
`start_auto_fix_process` calls `finalize_translation` directly.
`finalize_translation` (main.py:1344-1360) reports
`remaining_mismatch = [idx for idx in selected_for_auto_fix if mismatch]`.
Returns `some (final state, reported still-mismatched count)`; `none` only
on fuel exhaustion. -/
def runAutoFix (maxAttempts : Nat) (mismatch : Bool) :
    Nat → CtrlState → Option (CtrlState × Nat)
  | 0, _ => none
  | fuel + 1, s =>
    match autoFixRound maxAttempts mismatch s with
    | (s2, true) =>
      if s2.inSet && mismatch then runAutoFix maxAttempts mismatch fuel s2
      else some (s2, 0)
    | (s2, false) => some (s2, if s2.inSet && mismatch then 1 else 0)

theorem autoFixRound_attempts_le (maxAttempts : Nat) (mismatch : Bool)
    (s : CtrlState) (hs : s.attempts ≤ maxAttempts) :
    (autoFixRound maxAttempts mismatch s).1.attempts ≤ maxAttempts := by
  unfold autoFixRound
  split_ifs with h1 h2 h3 <;> dsimp only <;> omega

/-- Counterexample for C5: with max-attempts 3 and a fragment whose
translation always mismatches, the loop performs its three retries — but
the final summary reports zero still-mismatched fragments (not the
fragment as still mismatched): exhausting the cap discards the fragment
from `selected_for_auto_fix` before `finalize_translation` reads it. -/
theorem auto_fix_summary_counterexample :
    (runAutoFix 3 true 10 { attempts := 0, inSet := true, retries := 0 }).map Prod.snd
      = some 0 ∧
    (runAutoFix 3 true 10 { attempts := 0, inSet := true, retries := 0 }).map Prod.snd
      ≠ some 1 := by
  decide

/-- Claim C5 as amended: with auto-fix enabled, max-attempts 3 and an
always-mismatching fragment, the controller dispatches exactly 3 retries,
the per-fragment attempt counter ends at 3 and never exceeds max-attempts
(in general), and the final summary reports zero still-mismatched
fragments, the fragment having been discarded from the auto-fix set when
its attempts were exhausted. -/
theorem auto_fix_retry_cap :
    runAutoFix 3 true 10 { attempts := 0, inSet := true, retries := 0 } =
      some ({ attempts := 3, inSet := false, retries := 3 }, 0) ∧
    (∀ (maxAttempts : Nat) (mismatch : Bool) (fuel : Nat) (s st : CtrlState) (n : Nat),
      s.attempts ≤ maxAttempts →
      runAutoFix maxAttempts mismatch fuel s = some (st, n) →
      st.attempts ≤ maxAttempts) := by
  constructor
  · decide
  · intro maxA m fuel
    induction fuel with
    | zero => intro s st n hs h; simp [runAutoFix] at h
    | succ fuel ih =>
      intro s st n hs h
      have hle := autoFixRound_attempts_le maxA m s hs
      unfold runAutoFix at h
      split at h
      · rename_i s2 heq
        have hs2 : s2.attempts ≤ maxA := by rw [heq] at hle; simpa using hle
        split at h
        · exact ih s2 st n hs2 h
        · simp only [Option.some.injEq, Prod.mk.injEq] at h
          rw [← h.1]
          exact hs2
      · rename_i s2 heq
        have hs2 : s2.attempts ≤ maxA := by rw [heq] at hle; simpa using hle
        simp only [Option.some.injEq, Prod.mk.injEq] at h
        rw [← h.1]
        exact hs2

/-- Witness for C5: the amended theorem applied at the concrete run. -/
theorem auto_fix_retry_cap_witness :
    ({ attempts := 3, inSet := false, retries := 3 } : CtrlState).attempts ≤ 3 :=
  auto_fix_retry_cap.2 3 true 10 { attempts := 0, inSet := true, retries := 0 }
    { attempts := 3, inSet := false, retries := 3 } 0 (by decide) (by decide)

-- EPUB extraction deduplication (`TranslatorApp.load_epub`, main.py:752-815)

/-- The fragment dictionary created by `load_epub`, restricted to the
fields the dedup claim is about (the synthesized `id` attribute comes from
`uuid.uuid4()` — external randomness — and the `original_html` snapshot
plays no role in deduplication, so neither is modelled). -/
structure EFrag where
  item_href : String
  original_text : String
  translated_text : String
  is_translated : Bool
deriving DecidableEq

/-- The inner extraction loop of `load_epub` over one document item: for
each block element's normalized text (`elem.get_text(separator=" ",
strip=True)`, supplied here already normalized, in the per-tag `find_all`
iteration order), skip empty texts, skip keys `(item_href, text)` already
in `seen`, otherwise record the key and append a fragment.  Returns the
produced fragments and the updated `seen` set (modelled as a list). -/
def extractClean (name : String) :
    List String → List (String × String) → List EFrag × List (String × String)
  | [], seen => ([], seen)
  | t :: rest, seen =>
    if t = "" then extractClean name rest seen
    else if (name, t) ∈ seen then extractClean name rest seen
    else
      ((⟨name, t, "", false⟩ : EFrag) :: (extractClean name rest ((name, t) :: seen)).1,
       (extractClean name rest ((name, t) :: seen)).2)

/-- The outer loop of `load_epub` over the document items, threading the
`seen` set (which is created once, before the item loop). -/
def extractItems : List (String × List String) → List (String × String) → List EFrag
  | [], _ => []
  | (name, texts) :: items, seen =>
    (extractClean name texts seen).1 ++ extractItems items (extractClean name texts seen).2

/-- `load_epub`'s fragment list, from the per-item normalized texts. -/
def loadEpubFragments (items : List (String × List String)) : List EFrag :=
  extractItems items []

/-- The dedup key `(item_href, clean_text)` (main.py:779). -/
def fragKey (f : EFrag) : String × String :=
  (f.item_href, f.original_text)

theorem extractClean_inv (name : String) :
    ∀ (texts : List String) (seen : List (String × String)),
      (∀ f ∈ (extractClean name texts seen).1, fragKey f ∉ seen) ∧
      ((extractClean name texts seen).1.map fragKey).Nodup ∧
      (∀ k ∈ seen, k ∈ (extractClean name texts seen).2) ∧
      (∀ f ∈ (extractClean name texts seen).1, fragKey f ∈ (extractClean name texts seen).2) := by
  intro texts
  induction texts with
  | nil => intro seen; simp [extractClean]
  | cons t rest ih =>
    intro seen
    by_cases ht : t = ""
    · simpa [extractClean, ht] using ih seen
    · by_cases hmem : (name, t) ∈ seen
      · simpa [extractClean, ht, hmem] using ih seen
      · have hdef : extractClean name (t :: rest) seen =
            ((⟨name, t, "", false⟩ : EFrag) :: (extractClean name rest ((name, t) :: seen)).1,
             (extractClean name rest ((name, t) :: seen)).2) := by
          simp [extractClean, ht, hmem]
        obtain ⟨ih1, ih2, ih3, ih4⟩ := ih ((name, t) :: seen)
        rw [hdef]
        refine ⟨?_, ?_, ?_, ?_⟩
        · intro f hf
          rcases List.mem_cons.mp hf with rfl | hf'
          · simpa [fragKey] using hmem
          · intro hc
            exact ih1 f hf' (List.mem_cons_of_mem _ hc)
        · simp only [List.map_cons, List.nodup_cons]
          constructor
          · intro hmem2
            obtain ⟨f, hf, hkey⟩ := List.mem_map.mp hmem2
            have hnotin := ih1 f hf
            rw [hkey] at hnotin
            exact hnotin (List.mem_cons_self _ _)
          · exact ih2
        · intro k hk
          exact ih3 k (List.mem_cons_of_mem _ hk)
        · intro f hf
          rcases List.mem_cons.mp hf with rfl | hf'
          · simpa [fragKey] using ih3 (name, t) (List.mem_cons_self _ _)
          · exact ih4 f hf'

theorem extractItems_inv :
    ∀ (items : List (String × List String)) (seen : List (String × String)),
      (∀ f ∈ extractItems items seen, fragKey f ∉ seen) ∧
      ((extractItems items seen).map fragKey).Nodup := by
  intro items
  induction items with
  | nil => intro seen; simp [extractItems]
  | cons it items ih =>
    intro seen
    obtain ⟨name, texts⟩ := it
    obtain ⟨c1, c2, c3, c4⟩ := extractClean_inv name texts seen
    obtain ⟨i1, i2⟩ := ih (extractClean name texts seen).2
    constructor
    · intro f hf
      simp only [extractItems, List.mem_append] at hf
      rcases hf with hf1 | hf2
      · exact c1 f hf1
      · intro hc
        exact i1 f hf2 (c3 _ hc)
    · simp only [extractItems, List.map_append]
      rw [List.nodup_append]
      refine ⟨c2, i2, ?_⟩
      intro k hk1 hk2
      obtain ⟨f, hf, hkey⟩ := List.mem_map.mp hk1
      obtain ⟨g, hg, hkey2⟩ := List.mem_map.mp hk2
      have hin := c4 f hf
      have hout := i1 g hg
      rw [hkey] at hin
      rw [hkey2] at hout
      exact hout hin

/-- Claim C6: within a document the pair `(item_href, normalized text)` of
the extracted fragments is always duplicate-free, and for a sub-document
containing two block elements with the same normalized text exactly one
fragment is produced (the second occurrence is skipped at extraction
time). -/
theorem extraction_dedup :
    (∀ items : List (String × List String),
      ((loadEpubFragments items).map fragKey).Nodup) ∧
    loadEpubFragments [("doc1.xhtml", ["Hello world", "Hello world"])] =
      [{ item_href := "doc1.xhtml", original_text := "Hello world",
         translated_text := "", is_translated := false }] := by
  constructor
  · intro items
    exact (extractItems_inv items []).2
  · rfl

-- SRT loading (`TranslatorApp.load_srt`, main.py:818-844) ----------------

/-- The subtitle fragment dictionary created by `load_srt`. -/
structure SubFrag where
  id : String
  original_text : String
  translated_text : String
  is_translated : Bool
  item_href : String
  element_type : String
  timestamp : String
deriving DecidableEq

/-- The per-block loop of `load_srt` (main.py:825-840): split the block on
newlines; a block with fewer than 3 lines is skipped with `continue`;
otherwise line 0 (stripped) becomes the id, line 1 (stripped) the
timestamp, and the remaining lines joined by newlines and stripped become
the original text; the kind is the fixed string `"subtitle"`. -/
def loadSrtBlocks (path : String) : List String → List SubFrag
  | [] => []
  | b :: rest =>
    match pySplit b "\n" with
    | l0 :: l1 :: l2 :: ls =>
      { id := pyStrip l0,
        original_text := pyStrip (joinWith "\n" (l2 :: ls)),
        translated_text := "",
        is_translated := false,
        item_href := path,
        element_type := "subtitle",
        timestamp := pyStrip l1 } :: loadSrtBlocks path rest
    | _ => loadSrtBlocks path rest

/-- `load_srt` (main.py:818-844): split the content on blank-line
boundaries (`content.split('\n\n')`), keep the stripped non-empty blocks,
then run the per-block loop. -/
def loadSrt (path content : String) : List SubFrag :=
  loadSrtBlocks path (((pySplit content "\n\n").map pyStrip).filter (fun b => b != ""))

/-- The per-block contract of claim C7, as amended: a block of at least 3
lines yields a fragment whose id and timestamp are the first and second
lines stripped of surrounding whitespace (not verbatim), whose text is the
remaining lines joined by newlines and stripped, and whose kind is
`"subtitle"`; a shorter block yields nothing. -/
def mkSrtFragment (path b : String) : Option SubFrag :=
  if 3 ≤ (pySplit b "\n").length then
    some { id := pyStrip ((pySplit b "\n").getD 0 ""),
           original_text := pyStrip (joinWith "\n" ((pySplit b "\n").drop 2)),
           translated_text := "",
           is_translated := false,
           item_href := path,
           element_type := "subtitle",
           timestamp := pyStrip ((pySplit b "\n").getD 1 "") }
  else none

/-- The line-block extraction contract of claim C7 (amended), stated from
the spec's words over the kept blocks. -/
def loadSrtSpec (path content : String) : List SubFrag :=
  (((pySplit content "\n\n").map pyStrip).filter (fun b => b != "")).filterMap
    (mkSrtFragment path)

theorem loadSrtBlocks_eq (path : String) :
    ∀ bs : List String, loadSrtBlocks path bs = bs.filterMap (mkSrtFragment path) := by
  intro bs
  induction bs with
  | nil => simp [loadSrtBlocks]
  | cons b rest ih =>
    simp only [List.filterMap_cons]
    cases hb : pySplit b "\n" with
    | nil => simp [loadSrtBlocks, mkSrtFragment, hb, ih]
    | cons l0 t1 =>
      cases t1 with
      | nil => simp [loadSrtBlocks, mkSrtFragment, hb, ih]
      | cons l1 t2 =>
        cases t2 with
        | nil => simp [loadSrtBlocks, mkSrtFragment, hb, ih]
        | cons l2 ls =>
          simp [loadSrtBlocks, mkSrtFragment, hb, ih]

/-- Counterexample for C7: the code stores the timestamp stripped, not
verbatim — for the single kept block of `"1\n TS \nHello"` the second line
is `" TS "` but the stored timestamp is `"TS"`. -/
theorem srt_timestamp_not_verbatim :
    (loadSrt "f.srt" "1\n TS \nHello").map SubFrag.timestamp = ["TS"] ∧
    (pySplit "1\n TS \nHello" "\n").getD 1 "" = " TS " ∧
    (" TS " : String) ≠ "TS" := by
  refine ⟨rfl, rfl, by decide⟩

/-- Claim C7 as amended: the loader splits on blank-line boundaries,
silently discards every block with fewer than 3 lines, and for each kept
block stores the stripped first line as id, the stripped second line as
timestamp, the remaining lines joined by newlines and stripped as the
original text, with the kind fixed to `"subtitle"`; a malformed short block
produces no fragment and no error. -/
theorem load_srt_structure :
    (∀ path content, loadSrt path content = loadSrtSpec path content) ∧
    (∀ path content f, f ∈ loadSrt path content → f.element_type = "subtitle") ∧
    loadSrt "f.srt" "1\nTS\nHello\n\nbad block" =
      [{ id := "1", original_text := "Hello", translated_text := "",
         is_translated := false, item_href := "f.srt", element_type := "subtitle",
         timestamp := "TS" }] := by
  refine ⟨?_, ?_, ?_⟩
  · intro path content
    exact loadSrtBlocks_eq path _
  · intro path content f hf
    unfold loadSrt at hf
    rw [loadSrtBlocks_eq path] at hf
    obtain ⟨b, hb, hsome⟩ := List.mem_filterMap.mp hf
    unfold mkSrtFragment at hsome
    by_cases h3 : 3 ≤ (pySplit b "\n").length
    · rw [if_pos h3] at hsome
      simp only [Option.some.injEq] at hsome
      rw [← hsome]
    · rw [if_neg h3] at hsome
      exact absurd hsome (by simp)
  · rfl

/-- Witness for C7: the amended theorem applied at a concrete loaded file. -/
theorem load_srt_structure_witness :
    ({ id := "1", original_text := "Hello", translated_text := "",
       is_translated := false, item_href := "f.srt", element_type := "subtitle",
       timestamp := "TS" } : SubFrag).element_type = "subtitle" :=
  load_srt_structure.2.1 "f.srt" "1\nTS\nHello"
    { id := "1", original_text := "Hello", translated_text := "",
      is_translated := false, item_href := "f.srt", element_type := "subtitle",
      timestamp := "TS" } (by decide)

-- EPUB reinsertion fallback (`EPUBCreator.run`, epub_creator.py:76-93) ---

/-- Map over a list with the element index, threading a start index. -/
def mapWithIdx {α : Type} (f : Nat → α → α) : List α → Nat → List α
  | [], _ => []
  | a :: as, i => f i a :: mapWithIdx f as (i + 1)

/-- The indices of the template's text nodes with truthy `node.strip()` —
the `text_nodes` list of epub_creator.py:78-81, as positions into the
document-order list of all text-node contents. -/
def nonEmptyIdxs (texts : List String) : List Nat :=
  (List.range texts.length).filter (fun i => pyStrip (texts.getD i "") != "")

/-- Python `max(..., key=...)`: fold keeping the first maximum (a later
candidate replaces the current one only when strictly greater). -/
def argmaxGo (f : Nat → Nat) : Nat → List Nat → Nat
  | cur, [] => cur
  | cur, k :: rest => argmaxGo f (if f k > f cur then k else cur) rest

/-- The fallback substitution of `EPUBCreator.run` (epub_creator.py:76-93)
for a template with no title span, acting on the document-order list of the
template's text-node contents (the markup skeleton around the text nodes is
untouched by this branch and is not modelled): collect the non-empty
(`node.strip()`-truthy) text nodes; if none, do nothing; if exactly one,
replace its text with the translated text; otherwise replace the first
longest one (`max(text_nodes, key=len)`) with the translated text and blank
out every other non-empty text node. -/
def fallbackReplace (translated : String) (texts : List String) : List String :=
  match nonEmptyIdxs texts with
  | [] => texts
  | [i] => texts.set i translated
  | i :: j :: rest =>
    mapWithIdx
      (fun k s =>
        if k = argmaxGo (fun a => (texts.getD a "").length) i (j :: rest) then translated
        else if pyStrip s != "" then "" else s)
      texts 0

theorem mapWithIdx_length {α : Type} (f : Nat → α → α) :
    ∀ (l : List α) (start : Nat), (mapWithIdx f l start).length = l.length := by
  intro l
  induction l with
  | nil => intro start; rfl
  | cons a as ih => intro start; simp [mapWithIdx, ih]

theorem mapWithIdx_getD {α : Type} (f : Nat → α → α) (d : α) :
    ∀ (l : List α) (start k : Nat), k < l.length →
      (mapWithIdx f l start).getD k d = f (start + k) (l.getD k d) := by
  intro l
  induction l with
  | nil => intro start k hk; simp at hk
  | cons a as ih =>
    intro start k hk
    cases k with
    | zero => simp [mapWithIdx]
    | succ k =>
      have hk' : k < as.length := by simpa using hk
      have harith : start + 1 + k = start + (k + 1) := by omega
      have := ih (start + 1) k hk'
      simp only [mapWithIdx, List.getD_cons_succ]
      rw [← harith]
      exact this

theorem set_getD_self {α : Type} (d x : α) :
    ∀ (l : List α) (i : Nat), i < l.length → (l.set i x).getD i d = x := by
  intro l
  induction l with
  | nil => intro i hi; simp at hi
  | cons a as ih =>
    intro i hi
    cases i with
    | zero => rfl
    | succ i =>
      have hi' : i < as.length := by simpa using hi
      simpa [List.set] using ih i hi'

theorem set_getD_other {α : Type} (d x : α) :
    ∀ (l : List α) (i j : Nat), i ≠ j → (l.set i x).getD j d = l.getD j d := by
  intro l
  induction l with
  | nil => intro i j _; rfl
  | cons a as ih =>
    intro i j hij
    cases i with
    | zero =>
      cases j with
      | zero => exact absurd rfl hij
      | succ j => rfl
    | succ i =>
      cases j with
      | zero => rfl
      | succ j =>
        have : i ≠ j := by omega
        simpa [List.set] using ih i j this

theorem mem_nonEmptyIdxs (texts : List String) (i : Nat) :
    i ∈ nonEmptyIdxs texts ↔ i < texts.length ∧ pyStrip (texts.getD i "") ≠ "" := by
  simp [nonEmptyIdxs, List.mem_filter]

theorem argmaxGo_mem (f : Nat → Nat) :
    ∀ (l : List Nat) (cur : Nat), argmaxGo f cur l ∈ cur :: l := by
  intro l
  induction l with
  | nil => intro cur; simp [argmaxGo]
  | cons k rest ih =>
    intro cur
    unfold argmaxGo
    rcases List.mem_cons.mp (ih (if f k > f cur then k else cur)) with h | h
    · rw [h]
      split_ifs
      · exact List.mem_cons_of_mem _ (List.mem_cons_self _ _)
      · exact List.mem_cons_self _ _
    · exact List.mem_cons_of_mem _ (List.mem_cons_of_mem _ h)

theorem argmaxGo_ge (f : Nat → Nat) :
    ∀ (l : List Nat) (cur k : Nat), k ∈ cur :: l → f k ≤ f (argmaxGo f cur l) := by
  intro l
  induction l with
  | nil =>
    intro cur k hk
    have : k = cur := by simpa using hk
    simp [argmaxGo, this]
  | cons j rest ih =>
    intro cur k hk
    unfold argmaxGo
    have hcur : f cur ≤ f (if f j > f cur then j else cur) := by
      split_ifs with h
      · omega
      · exact Nat.le_refl _
    have hj : f j ≤ f (if f j > f cur then j else cur) := by
      split_ifs with h
      · exact Nat.le_refl _
      · omega
    have htop : f (if f j > f cur then j else cur) ≤
        f (argmaxGo f (if f j > f cur then j else cur) rest) :=
      ih (if f j > f cur then j else cur) _ (List.mem_cons_self _ _)
    rcases List.mem_cons.mp hk with rfl | hk'
    · exact Nat.le_trans hcur htop
    · rcases List.mem_cons.mp hk' with rfl | hk''
      · exact Nat.le_trans hj htop
      · exact ih _ k (List.mem_cons_of_mem _ hk'')

/-- Claim C8: during fallback reinsertion (no title span), when the
template has exactly one non-empty text node its text is replaced by the
translated text and everything else is untouched; when it has more than
one, the replaced node is the (first) longest one, every other non-empty
text node is blanked out, and whitespace-only text nodes are untouched. -/
theorem fallback_insert_spec (translated : String) (texts : List String) :
    ((nonEmptyIdxs texts).length = 1 →
      ∃ i, nonEmptyIdxs texts = [i] ∧
        fallbackReplace translated texts = texts.set i translated ∧
        (fallbackReplace translated texts).getD i "" = translated ∧
        ∀ k, k ≠ i → (fallbackReplace translated texts).getD k "" = texts.getD k "") ∧
    (2 ≤ (nonEmptyIdxs texts).length →
      ∃ m, m ∈ nonEmptyIdxs texts ∧
        (∀ k ∈ nonEmptyIdxs texts,
          (texts.getD k "").length ≤ (texts.getD m "").length) ∧
        (fallbackReplace translated texts).length = texts.length ∧
        (fallbackReplace translated texts).getD m "" = translated ∧
        (∀ k ∈ nonEmptyIdxs texts, k ≠ m →
          (fallbackReplace translated texts).getD k "" = "") ∧
        (∀ k, k < texts.length → k ∉ nonEmptyIdxs texts →
          (fallbackReplace translated texts).getD k "" = texts.getD k "")) := by
  constructor
  · intro h1
    obtain ⟨i, hi⟩ := List.length_eq_one.mp h1
    have hilt : i < texts.length := by
      have : i ∈ nonEmptyIdxs texts := by rw [hi]; exact List.mem_singleton_self i
      exact ((mem_nonEmptyIdxs texts i).mp this).1
    have hfr : fallbackReplace translated texts = texts.set i translated := by
      unfold fallbackReplace
      rw [hi]
    refine ⟨i, hi, hfr, ?_, ?_⟩
    · rw [hfr]
      exact set_getD_self "" translated texts i hilt
    · intro k hk
      rw [hfr]
      exact set_getD_other "" translated texts i k (fun he => hk he.symm)
  · intro h2
    have hex : ∃ i j rest, nonEmptyIdxs texts = i :: j :: rest := by
      cases hne : nonEmptyIdxs texts with
      | nil => rw [hne] at h2; simp at h2
      | cons a t =>
        cases t with
        | nil => rw [hne] at h2; simp at h2
        | cons b r => exact ⟨a, b, r, rfl⟩
    obtain ⟨i, j, rest, hidx⟩ := hex
    have hfr : fallbackReplace translated texts =
        mapWithIdx
          (fun k s =>
            if k = argmaxGo (fun a => (texts.getD a "").length) i (j :: rest) then
              translated
            else if pyStrip s != "" then "" else s)
          texts 0 := by
      unfold fallbackReplace
      rw [hidx]
    set m := argmaxGo (fun a => (texts.getD a "").length) i (j :: rest) with hm
    have hmem : m ∈ nonEmptyIdxs texts := by
      rw [hidx, hm]
      exact argmaxGo_mem _ (j :: rest) i
    have hmlt : m < texts.length := ((mem_nonEmptyIdxs texts m).mp hmem).1
    refine ⟨m, hmem, ?_, ?_, ?_, ?_, ?_⟩
    · intro k hk
      rw [hidx] at hk
      exact argmaxGo_ge (fun a => (texts.getD a "").length) (j :: rest) i k hk
    · rw [hfr]
      exact mapWithIdx_length _ texts 0
    · rw [hfr, mapWithIdx_getD _ "" texts 0 m hmlt]
      simp
    · intro k hk hkm
      have hklt : k < texts.length := ((mem_nonEmptyIdxs texts k).mp hk).1
      have hkne : pyStrip (texts.getD k "") ≠ "" :=
        ((mem_nonEmptyIdxs texts k).mp hk).2
      rw [hfr, mapWithIdx_getD _ "" texts 0 k hklt]
      simp only [Nat.zero_add]
      rw [if_neg hkm, if_pos (by simpa using hkne)]
    · intro k hklt hknot
      have hkeq : pyStrip (texts.getD k "") = "" := by
        by_contra hne
        exact hknot ((mem_nonEmptyIdxs texts k).mpr ⟨hklt, hne⟩)
      have hkm : k ≠ m := by
        intro he
        rw [he] at hknot
        exact hknot hmem
      rw [hfr, mapWithIdx_getD _ "" texts 0 k hklt]
      simp only [Nat.zero_add]
      rw [if_neg hkm, if_neg (by simpa using hkeq)]

/-- Witness for C8 at a concrete template with two non-empty text nodes and
one whitespace-only node. -/
theorem fallback_insert_spec_witness :
    ∃ m, m ∈ nonEmptyIdxs ["a", " ", "bbb"] ∧
      (∀ k ∈ nonEmptyIdxs ["a", " ", "bbb"],
        ((["a", " ", "bbb"] : List String).getD k "").length ≤
          ((["a", " ", "bbb"] : List String).getD m "").length) ∧
      (fallbackReplace "T" ["a", " ", "bbb"]).length =
        (["a", " ", "bbb"] : List String).length ∧
      (fallbackReplace "T" ["a", " ", "bbb"]).getD m "" = "T" ∧
      (∀ k ∈ nonEmptyIdxs ["a", " ", "bbb"], k ≠ m →
        (fallbackReplace "T" ["a", " ", "bbb"]).getD k "" = "") ∧
      (∀ k, k < (["a", " ", "bbb"] : List String).length →
        k ∉ nonEmptyIdxs ["a", " ", "bbb"] →
        (fallbackReplace "T" ["a", " ", "bbb"]).getD k "" =
          (["a", " ", "bbb"] : List String).getD k "") :=
  (fallback_insert_spec "T" ["a", " ", "bbb"]).2 (by decide)
